import Mathlib

/-!
Verification development for the residue-type classification and
bond-reference-atom resolution code of src/src/store/residue-type.js.

The JavaScript is embedded shallowly:
* atom indices are `Nat`, JS numbers holding atom-proxy indices are `Int`;
* the sparse array `bondReferenceAtoms` is a dense `List RefEntry`, where
  `RefEntry.undef` models a hole, `RefEntry.num v` an integer-valued entry,
  and `RefEntry.str v` the decimal string of `v` (the value a
  `for ... in` loop key has in JS, where array keys are strings);
* the adjacency object `bondGraph` is a total function `Nat → List Nat`
  defaulting to the empty neighbour list;
* recursion bounded by `maxDepth` in `propogateSearch` is structural on the
  depth; the `while` loop of the ring search carries an explicit
  iteration budget equal to the number of iterations the JS loop can run.
-/

/-- An entry of the `bondReferenceAtoms` array.  `str v` records that the
JS code stored the string key `String(v)` produced by a `for ... in` loop
over a neighbour array (so `v` is a position in that array, and the stored
value is a string, not a number). -/
inductive RefEntry where
  | undef
  | num (v : Nat)
  | str (v : Nat)
deriving DecidableEq, Repr

/-- The parallel bond arrays of a residue type
(`this.bonds.atomIndices1/atomIndices2/bondOrders`). -/
structure Bonds where
  atomIndices1 : List Nat
  atomIndices2 : List Nat
  bondOrders : List Nat
deriving DecidableEq, Repr

/-- `nb = this.bonds.atomIndices1.length`, the bond count used by the loops. -/
def Bonds.nb (bonds : Bonds) : Nat := bonds.atomIndices1.length

/-- `var ai1 = atomIndices1[i]`. -/
def bondAtom1 (bonds : Bonds) (i : Nat) : Nat := bonds.atomIndices1.getD i 0

/-- `var ai2 = atomIndices2[i]`. -/
def bondAtom2 (bonds : Bonds) (i : Nat) : Nat := bonds.atomIndices2.getD i 0

/-- The test `this.bonds.bondOrders[i] <= 1` of `assignBondReferenceAtoms`
(a missing entry reads as `undefined`, and `undefined <= 1` is false in JS). -/
def bondOrderLe1 (bonds : Bonds) (i : Nat) : Bool :=
  match bonds.bondOrders.get? i with
  | some o => decide (o ≤ 1)
  | none => false

/-- The adjacency map built at the top of `assignBondReferenceAtoms`:
for every bond, each endpoint is pushed onto the other endpoint's
neighbour list, in bond order, without de-duplication. -/
def buildBondGraph (bonds : Bonds) : Nat → List Nat :=
  (List.range bonds.nb).foldl
    (fun g i =>
      let ai1 := bondAtom1 bonds i
      let ai2 := bondAtom2 bonds i
      let g1 := fun a => if a = ai1 then g a ++ [ai2] else g a
      fun a => if a = ai2 then g1 a ++ [ai1] else g1 a)
    (fun _ => [])

/-- One pass of the `for` loop inside `propogateSearch` over the remaining
neighbours of the current atom.  `recur` is the recursive search at depth
`maxDepth - 1`; `deepen` is the JS test `maxDepth > 0`.  The ring-closure
test (`visited.length >= 3 && visited[0] === neighbours[i]`) runs before
the depth guard, exactly as in the source; a successful search returns
the `visited` path as it stands at the moment of closure (the pushes of
the successful branch are never popped). -/
def psStep (recur : List Nat → Option (List Nat)) (deepen : Bool)
    (visited : List Nat) : List Nat → Option (List Nat)
  | [] => none
  | n :: ns =>
    if 3 ≤ visited.length ∧ visited.headD 0 = n then some visited
    else if deepen then
      (if n ∈ visited then psStep recur deepen visited ns
       else
         match recur (visited ++ [n]) with
         | some p => some p
         | none => psStep recur deepen visited ns)
    else psStep recur deepen visited ns

/-- `propogateSearch( bondGraph, visited, maxDepth )`: depth-first search for
a ring closing back to `visited[0]`, recursing only while `maxDepth > 0`,
with the candidate pushed before and popped after each failed recursive
call.  Returns the discovered path on success. -/
def propogateSearch (bondGraph : Nat → List Nat) :
    List Nat → Nat → Option (List Nat)
  | visited, 0 =>
    psStep (fun _ => none) false visited (bondGraph (visited.getLastD 0))
  | visited, maxDepth + 1 =>
    psStep (fun v => propogateSearch bondGraph v maxDepth) true visited
      (bondGraph (visited.getLastD 0))

/-- The `while (maxDepth < p.maxRingSize - 3)` loop of
`assignBondReferenceAtoms`, with `bound = p.maxRingSize - 3`; note the
loop body calls `propogateSearch` with the constant `bound`, not with the
loop counter.  `rem` is an explicit iteration budget, instantiated with
`bound - d` so that the recursion mirrors the JS loop exactly. -/
def ringLoopAux (g : Nat → List Nat) (visited : List Nat) (bound : Nat) :
    Nat → Nat → Option (List Nat)
  | 0, _ => none
  | rem + 1, d =>
    if d < bound then
      match propogateSearch g visited bound with
      | some p => some p
      | none => ringLoopAux g visited bound rem (d + 1)
    else none

/-- The ring-search loop started at counter value `d` (the source starts it
at `maxDepth = 3`). -/
def ringLoop (g : Nat → List Nat) (visited : List Nat) (bound d : Nat) :
    Option (List Nat) :=
  ringLoopAux g visited bound (bound - d) d

/-- First array position `k` of a neighbour list of length `len` whose
`for ... in` key compares `!=` to the atom index `x` (JS coerces the
string key to a number for the loose comparison).  Models the
terminal-endpoint branches, which `break` after the first assignment. -/
def firstIdxNe (len x : Nat) : Option Nat :=
  (List.range len).find? fun k => k != x

/-- Last array position `k != x`: models the no-ring fallback branch,
whose loop keeps overwriting the entry without a `break`. -/
def lastIdxNe (len x : Nat) : Option Nat :=
  (List.range len).foldl (fun acc k => if k ≠ x then some k else acc) none

/-- The body of the per-bond loop of `assignBondReferenceAtoms` for bond
`i`, producing this bond's `bondReferenceAtoms` entry (each iteration
writes only index `i`, so the loop is a map over bond indices):
single bonds are skipped; a terminal endpoint triggers the
neighbour-position branches; otherwise the bounded ring search runs and,
on closure, stores `visited[2]`, else the fallback stores a neighbour
position of `ai1`. -/
def refEntryFor (bonds : Bonds) (g : Nat → List Nat) (maxRingSize i : Nat) :
    RefEntry :=
  if bondOrderLe1 bonds i then RefEntry.undef
  else if (g (bondAtom1 bonds i)).length = 1 then
    (if (g (bondAtom2 bonds i)).length = 1 then RefEntry.undef
     else
       match firstIdxNe (g (bondAtom2 bonds i)).length (bondAtom1 bonds i) with
       | some k => RefEntry.str k
       | none => RefEntry.undef)
  else if (g (bondAtom2 bonds i)).length = 1 then
    (match firstIdxNe (g (bondAtom1 bonds i)).length (bondAtom2 bonds i) with
     | some k => RefEntry.str k
     | none => RefEntry.undef)
  else
    match ringLoop g [bondAtom1 bonds i, bondAtom2 bonds i] (maxRingSize - 3) 3 with
    | some p => RefEntry.num (p.getD 2 0)
    | none =>
      match lastIdxNe (g (bondAtom1 bonds i)).length (bondAtom2 bonds i) with
      | some k => RefEntry.str k
      | none => RefEntry.undef

/-- `Object.assign( { maxRingSize: 8 }, params )` with no params. -/
def maxRingSizeDefault : Nat := 8

/-- `assignBondReferenceAtoms`: reset the array, then fill one entry per
bond from the shared bond graph. -/
def assignBondReferenceAtoms (bonds : Bonds) (maxRingSize : Nat) :
    List RefEntry :=
  (List.range bonds.nb).map (refEntryFor bonds (buildBondGraph bonds) maxRingSize)

/-- The unordered endpoint-pair match of the scan in
`getBondReferenceAtom` at bond index `j`. -/
def matchesBond (bonds : Bonds) (t1 t2 : Int) (j : Nat) : Bool :=
  (t1 == (bondAtom1 bonds j : Int) && t2 == (bondAtom2 bonds j : Int)) ||
  (t1 == (bondAtom2 bonds j : Int) && t2 == (bondAtom1 bonds j : Int))

/-- The scan loop of `getBondReferenceAtom`: `nBonds` iterations starting
at the locality hint, with `if (j === nBonds) j = 0` at the top of each
iteration.  Returns the matched bond index. -/
def scanBonds (bonds : Bonds) (t1 t2 : Int) : Nat → Nat → Option Nat
  | 0, _ => none
  | fuel + 1, start =>
    let j := if start = bonds.nb then 0 else start
    if matchesBond bonds t1 t2 j then some j
    else scanBonds bonds t1 t2 fuel (j + 1)

/-- Number of scan iterations needed to reach bond index `k` when the
scan starts at hint `j` (with the `if (j === nBonds) j = 0` fix-up):
used to reason about the wrap-around of `scanBonds`. -/
def cyclicGap (nb j k : Nat) : Nat :=
  if (if j = nb then 0 else j) ≤ k then k - (if j = nb then 0 else j)
  else nb - (if j = nb then 0 else j) + k

/-- The residue-type state `getBondReferenceAtom` reads: `this.atomCount`
and `this.bonds` (with `this.bondReferenceAtoms` always the construction
result `assignBondReferenceAtoms` at the default `maxRingSize`). -/
structure RTModel where
  atomCount : Nat
  bonds : Bonds
deriving DecidableEq, Repr

/-- `this.bondReferenceAtoms` as assigned at construction. -/
def RTModel.refAtoms (rt : RTModel) : List RefEntry :=
  assignBondReferenceAtoms rt.bonds maxRingSizeDefault

/-- The fields of an atom proxy read by `getBondReferenceAtom`. -/
structure AtomProxy where
  index : Int
  residueIndex : Nat
  residueAtomOffset : Int
deriving DecidableEq, Repr

/-- `getBondReferenceAtom( ap1, ap2 )` with the locality hint
`this._lastBondIdx` made an explicit argument: rejects inter-residue
pairs, maps to local indices, sanity-checks them against `atomCount`,
scans the bond list from the hint, and returns the cached entry shifted
back to a global index when it passes `Number.isInteger` (which only a
`num` entry does; `undefined` holes and `for...in` string keys fail). -/
def getBondReferenceAtom (rt : RTModel) (lastBondIdx : Nat)
    (ap1 ap2 : AtomProxy) : Option Int :=
  if ap1.residueIndex ≠ ap2.residueIndex then none
  else
    let typeAtomIdx1 := ap1.index - ap1.residueAtomOffset
    let typeAtomIdx2 := ap2.index - ap2.residueAtomOffset
    if (rt.atomCount : Int) ≤ max typeAtomIdx1 typeAtomIdx2 ∨
        min typeAtomIdx1 typeAtomIdx2 < 0 then none
    else
      match scanBonds rt.bonds typeAtomIdx1 typeAtomIdx2 rt.bonds.nb lastBondIdx with
      | some j =>
        (match rt.refAtoms.getD j RefEntry.undef with
         | RefEntry.num v => some ((v : Int) + ap1.residueAtomOffset)
         | _ => none)
      | none => none

/-- Instrumented `psStep`: alongside the search result, the second
component records the deepest nesting of `recurD` invocations actually
performed by the loop (0 when no recursive call runs). -/
def psStepD (recurD : List Nat → Option (List Nat) × Nat) (deepen : Bool)
    (visited : List Nat) : List Nat → Option (List Nat) × Nat
  | [] => (none, 0)
  | n :: ns =>
    if 3 ≤ visited.length ∧ visited.headD 0 = n then (some visited, 0)
    else if deepen then
      (if n ∈ visited then psStepD recurD deepen visited ns
       else
         match recurD (visited ++ [n]) with
         | (some p, d) => (some p, d + 1)
         | (none, d) =>
           let r := psStepD recurD deepen visited ns
           (r.1, max (d + 1) r.2))
    else psStepD recurD deepen visited ns

/-- Instrumented `propogateSearch`, counting the recursion depth used. -/
def propogateSearchD (bondGraph : Nat → List Nat) :
    List Nat → Nat → Option (List Nat) × Nat
  | visited, 0 =>
    psStepD (fun _ => (none, 0)) false visited (bondGraph (visited.getLastD 0))
  | visited, maxDepth + 1 =>
    psStepD (fun v => propogateSearchD bondGraph v maxDepth) true visited
      (bondGraph (visited.getLastD 0))

/-- Instrumented ring-search loop, counting executed iterations. -/
def ringLoopDAux (g : Nat → List Nat) (visited : List Nat) (bound : Nat) :
    Nat → Nat → Option (List Nat) × Nat
  | 0, _ => (none, 0)
  | rem + 1, d =>
    if d < bound then
      match propogateSearch g visited bound with
      | some p => (some p, 1)
      | none =>
        let r := ringLoopDAux g visited bound rem (d + 1)
        (r.1, r.2 + 1)
    else (none, 0)

/-- Instrumented `ringLoop`. -/
def ringLoopD (g : Nat → List Nat) (visited : List Nat) (bound d : Nat) :
    Option (List Nat) × Nat :=
  ringLoopDAux g visited bound (bound - d) d

/-- Follows the spec's words, for comparison with the source behaviour:
the ring search "attempted with increasing depth limits starting at 3 up
to `maxRingSize − 3`, stopping at the first successful closure".
`iterDeepAux` tries `propogateSearch` at depth `d`, then `d+1`, ...,
while `d ≤ bound`. -/
def iterDeepAux (g : Nat → List Nat) (visited : List Nat) (bound : Nat) :
    Nat → Nat → Option (List Nat)
  | 0, _ => none
  | rem + 1, d =>
    if d ≤ bound then
      match propogateSearch g visited d with
      | some p => some p
      | none => iterDeepAux g visited bound rem (d + 1)
    else none

/-- Follows the spec's words: iterative-deepening ring search with depth
limits 3, 4, ..., `maxRingSize - 3`. -/
def ringSearchIterDeep (g : Nat → List Nat) (visited : List Nat)
    (maxRingSize : Nat) : Option (List Nat) :=
  iterDeepAux g visited (maxRingSize - 3) maxRingSize 3

/-- Modelled from the spec: the molecule-type tags of
structure-constants.js (not under src/), as an enumeration. -/
inductive MoleculeType where
  | unknown
  | water
  | ion
  | protein
  | rna
  | dna
  | saccharide
deriving DecidableEq, Repr

/-- Modelled from the spec: protein-like chemical-component-type codes
(`ChemCompProtein` of structure-constants.js, not under src/). -/
def ChemCompProtein : List String :=
  ["L-PEPTIDE LINKING", "D-PEPTIDE LINKING", "PEPTIDE LINKING"]

/-- Modelled from the spec: RNA-like chemical-component-type codes. -/
def ChemCompRna : List String := ["RNA LINKING", "L-RNA LINKING"]

/-- Modelled from the spec: DNA-like chemical-component-type codes. -/
def ChemCompDna : List String := ["DNA LINKING", "L-DNA LINKING"]

/-- Modelled from the spec: saccharide chemical-component-type codes. -/
def ChemCompSaccharide : List String :=
  ["SACCHARIDE", "D-SACCHARIDE", "L-SACCHARIDE"]

/-- Modelled from the spec: the 20-letter amino-acid resname set (`AA3`). -/
def AA3 : List String :=
  ["ALA", "ARG", "ASN", "ASP", "CYS", "GLN", "GLU", "GLY", "HIS", "ILE",
   "LEU", "LYS", "MET", "PHE", "PRO", "SER", "THR", "TRP", "TYR", "VAL"]

/-- Modelled from the spec: the RNA-base resname set. -/
def RnaBases : List String := ["A", "C", "T", "G", "U"]

/-- Modelled from the spec: the DNA-base resname set. -/
def DnaBases : List String := ["DA", "DC", "DT", "DG", "DU"]

/-- Modelled from the spec: the fixed water resname set (`WaterNames`). -/
def WaterNames : List String := ["SOL", "WAT", "HOH", "H2O", "TIP3", "SPC"]

/-- Modelled from the spec: the fixed ion resname set (`IonNames`). -/
def IonNames : List String := ["NA", "CL", "K", "MG", "ZN", "MN", "FE", "SO4"]

/-- The apostrophe character used in primed atom names such as O3'. -/
def primeMark : String := (Char.ofNat 39).toString

/-- What the classifier reads from a residue type: `resname`,
`chemCompType` (the empty string models the JS falsy absent value), and
the atom names that `this.structure.atomMap` resolves for
`atomTypeIdList` (the external atom-type table the spec treats as a
collaborator). -/
structure ClassInput where
  resname : String
  chemCompType : String
  atomNames : List String
deriving DecidableEq, Repr

/-- `hasAtomWithName( q1, q2, ... )`: every query (a name, modelled as a
singleton list, or a synonym array) must match some atom name of the
residue, via the linear scan of `getAtomIndexByName`. -/
def hasAtomWithName (c : ClassInput) (queries : List (List String)) : Bool :=
  queries.all fun q => c.atomNames.any fun a => q.contains a

/-- `isProtein`: with a truthy `chemCompType`, membership of the code in
`ChemCompProtein`; otherwise the CA/C/N atom-name heuristic or `AA3`
resname membership. -/
def isProtein (c : ClassInput) : Bool :=
  if c.chemCompType ≠ "" then ChemCompProtein.contains c.chemCompType
  else
    hasAtomWithName c [["CA"], ["C"], ["N"]] || AA3.contains c.resname

/-- `isRna`. -/
def isRna (c : ClassInput) : Bool :=
  if c.chemCompType ≠ "" then ChemCompRna.contains c.chemCompType
  else
    hasAtomWithName c
      [["P", "O3" ++ primeMark, "O3*"], ["C4" ++ primeMark, "C4*"],
       ["O2" ++ primeMark, "O2*"]] ||
    RnaBases.contains c.resname

/-- `isDna`. -/
def isDna (c : ClassInput) : Bool :=
  if c.chemCompType ≠ "" then ChemCompDna.contains c.chemCompType
  else
    (hasAtomWithName c
        [["P", "O3" ++ primeMark, "O3*"], ["C3" ++ primeMark, "C3*"]] &&
     !hasAtomWithName c [["O2" ++ primeMark, "O2*"]]) ||
    DnaBases.contains c.resname

/-- `isWater`: resname membership only, with no `chemCompType` guard. -/
def isWater (c : ClassInput) : Bool := WaterNames.contains c.resname

/-- `isIon`: resname membership only, with no `chemCompType` guard. -/
def isIon (c : ClassInput) : Bool := IonNames.contains c.resname

/-- `isSaccharide`: code membership only (no name fallback). -/
def isSaccharide (c : ClassInput) : Bool :=
  ChemCompSaccharide.contains c.chemCompType

/-- `getMoleculeType`: the first-match-wins priority chain. -/
def getMoleculeType (c : ClassInput) : MoleculeType :=
  if isProtein c then MoleculeType.protein
  else if isRna c then MoleculeType.rna
  else if isDna c then MoleculeType.dna
  else if isWater c then MoleculeType.water
  else if isIon c then MoleculeType.ion
  else if isSaccharide c then MoleculeType.saccharide
  else MoleculeType.unknown

/-- The persisted fields of `toJSON`. -/
structure RTJson where
  resname : String
  atomTypeIdList : List Nat
  hetero : Nat
deriving DecidableEq, Repr

/-- The residue-type fields relevant to serialization: the stored inputs
plus the derived fields this development models. -/
structure ResidueTypeModel where
  resname : String
  atomTypeIdList : List Nat
  hetero : Nat
  chemCompType : String
  bonds : Bonds
  atomCount : Nat
  moleculeType : MoleculeType
  bondReferenceAtoms : List RefEntry
deriving DecidableEq, Repr

/-- The `ResidueType` constructor: stores `resname`, `atomTypeIdList`,
`hetero ? 1 : 0`, `chemCompType` and `bonds`, and computes the derived
fields (`atomCount`, `moleculeType` via the external atom-name table
`atomNamesOf`, and `bondReferenceAtoms` at the default `maxRingSize`). -/
def mkResidueType (atomNamesOf : Nat → String) (resname : String)
    (atomTypeIdList : List Nat) (hetero : Bool) (chemCompType : String)
    (bonds : Bonds) : ResidueTypeModel :=
  { resname := resname
    atomTypeIdList := atomTypeIdList
    hetero := if hetero then 1 else 0
    chemCompType := chemCompType
    bonds := bonds
    atomCount := atomTypeIdList.length
    moleculeType :=
      getMoleculeType
        { resname := resname, chemCompType := chemCompType,
          atomNames := atomTypeIdList.map atomNamesOf }
    bondReferenceAtoms := assignBondReferenceAtoms bonds maxRingSizeDefault }

/-- `toJSON`: persists exactly `resname`, `atomTypeIdList`, `hetero`. -/
def toJSON (rt : ResidueTypeModel) : RTJson :=
  { resname := rt.resname
    atomTypeIdList := rt.atomTypeIdList
    hetero := rt.hetero }

/-- Modelled from the spec: `fromJSON` is not under src/ (only `toJSON`
is); per the serialization contract it reconstructs a residue type from
the minimal persisted fields, with `chemCompType` and `bonds` re-supplied
externally and every derived field recomputed by a fresh construction. -/
def fromJSON (atomNamesOf : Nat → String) (j : RTJson)
    (chemCompType : String) (bonds : Bonds) : ResidueTypeModel :=
  mkResidueType atomNamesOf j.resname j.atomTypeIdList (j.hetero != 0)
    chemCompType bonds

/-- A three-atom triangle residue 0-1-2-0 whose bond (0,1) has order 2:
the ring search closes the triangle and stores atom 2. -/
def bondsTriangle : Bonds :=
  { atomIndices1 := [0, 1, 2], atomIndices2 := [1, 2, 0],
    bondOrders := [2, 1, 1] }

/-- The triangle residue as query state. -/
def rtTriangle : RTModel := { atomCount := 3, bonds := bondsTriangle }

/-- A double bond (0,1) with atom 0 terminal and atom 1 bonded on to
atom 2: the terminal-endpoint branch runs. -/
def bondsTerminal : Bonds :=
  { atomIndices1 := [0, 1], atomIndices2 := [1, 2], bondOrders := [2, 1] }

/-- The terminal-branch residue as query state (atoms 0, 1, 2). -/
def rtTerminal : RTModel := { atomCount := 3, bonds := bondsTerminal }

/-- The bond (0,1) listed three times over a two-atom residue, the first
copy with order 2: both endpoints look non-terminal (degree 3), the ring
search fails, and the fallback stores the last neighbour position. -/
def bondsDup3 : Bonds :=
  { atomIndices1 := [0, 0, 0], atomIndices2 := [1, 1, 1],
    bondOrders := [2, 1, 1] }

/-- A duplicate bond (0,1): once with order 1 (no entry) and once with
order 2 (ring entry via the triangle 0-1-2), inside a triangle. -/
def bondsDupMixed : Bonds :=
  { atomIndices1 := [0, 0, 1, 2], atomIndices2 := [1, 1, 2, 0],
    bondOrders := [1, 2, 1, 1] }

/-- The mixed-duplicate residue as query state. -/
def rtDupMixed : RTModel := { atomCount := 3, bonds := bondsDupMixed }

/-- A residue holding a double bond (0,1) on two rings: a six-ring
0-1-2-3-4-5-0 listed first and a triangle 0-1-6-0 listed second, so the
first neighbour branch of atom 1 leads into the six-ring and the later
one into the triangle. -/
def bondsTwoRings : Bonds :=
  { atomIndices1 := [0, 1, 2, 3, 4, 5, 1, 6],
    atomIndices2 := [1, 2, 3, 4, 5, 0, 6, 0],
    bondOrders := [2, 1, 1, 1, 1, 1, 1, 1] }

/-- A successful `psStep` pass returns a path of length at least 3 that
extends `visited` and whose new elements avoid `visited`, provided the
recursive search has the same property over its own start path. -/
theorem psStep_some_inv (recur : List Nat → Option (List Nat)) (deepen : Bool)
    (visited : List Nat)
    (Hrec : ∀ v q, recur v = some q →
      3 ≤ q.length ∧ v <+: q ∧ ∀ x ∈ q.drop v.length, x ∉ v) :
    ∀ ns p, psStep recur deepen visited ns = some p →
      3 ≤ p.length ∧ visited <+: p ∧ ∀ x ∈ p.drop visited.length, x ∉ visited := by
  intro ns
  induction ns with
  | nil => intro p h; simp [psStep] at h
  | cons n ns ih =>
    intro p h
    simp only [psStep] at h
    by_cases hc : 3 ≤ visited.length ∧ visited.headD 0 = n
    · rw [if_pos hc] at h
      obtain rfl : visited = p := by injection h
      refine ⟨hc.1, List.prefix_rfl, ?_⟩
      simp [List.drop_length]
    · rw [if_neg hc] at h
      by_cases hd : deepen = true
      · rw [if_pos hd] at h
        by_cases hm : n ∈ visited
        · rw [if_pos hm] at h
          exact ih p h
        · rw [if_neg hm] at h
          cases hr : recur (visited ++ [n]) with
          | none =>
            rw [hr] at h
            exact ih p h
          | some q =>
            rw [hr] at h
            obtain rfl : p = q := (Option.some.inj h).symm
            obtain ⟨h3, hpre, hfresh⟩ := Hrec _ _ hr
            refine ⟨h3, (List.prefix_append visited [n]).trans hpre, ?_⟩
            obtain ⟨t, ht⟩ := hpre
            intro x hx
            have hdrop : List.drop visited.length p = n :: t := by
              rw [← ht, List.append_assoc, List.singleton_append, List.drop_left]
            rw [hdrop] at hx
            rcases List.mem_cons.mp hx with rfl | hx'
            · exact hm
            · have ht' : List.drop (visited ++ [n]).length p = t := by
                rw [← ht, List.drop_left]
              have hxq := hfresh x (by rw [ht']; exact hx')
              intro hxv
              exact hxq (List.mem_append_left _ hxv)
      · rw [if_neg hd] at h
        exact ih p h

/-- A successful bounded search returns a path of length at least 3 that
extends the start path, all of whose new elements avoid the start path. -/
theorem propogateSearch_some_inv (g : Nat → List Nat) :
    ∀ md visited p, propogateSearch g visited md = some p →
      3 ≤ p.length ∧ visited <+: p ∧ ∀ x ∈ p.drop visited.length, x ∉ visited := by
  intro md
  induction md with
  | zero =>
    intro visited p h
    exact psStep_some_inv _ _ _ (by intro v q hq; simp at hq) _ p h
  | succ md ih =>
    intro visited p h
    exact psStep_some_inv _ _ _ (fun v q hq => ih v q hq) _ p h

/-- The deepening loop always calls the search with the constant depth
`bound`, so it behaves as a single search guarded by loop entry. -/
theorem ringLoopAux_eq (g : Nat → List Nat) (visited : List Nat) (bound : Nat) :
    ∀ rem d, ringLoopAux g visited bound rem d =
      if d < bound ∧ 0 < rem then propogateSearch g visited bound else none := by
  intro rem
  induction rem with
  | zero => intro d; simp [ringLoopAux]
  | succ rem ih =>
    intro d
    simp only [ringLoopAux]
    by_cases hd : d < bound
    · rw [if_pos hd]
      cases hs : propogateSearch g visited bound with
      | some p => simp [hs, hd]
      | none => rw [ih]; simp [hs, hd]
    · rw [if_neg hd]
      simp [hd]

/-- The ring-search loop started at counter `d` equals one search at the
constant depth `bound` whenever it runs at all. -/
theorem ringLoop_eq (g : Nat → List Nat) (visited : List Nat) (bound d : Nat) :
    ringLoop g visited bound d =
      if d < bound then propogateSearch g visited bound else none := by
  unfold ringLoop
  rw [ringLoopAux_eq]
  by_cases hd : d < bound
  · have h2 : 0 < bound - d := by omega
    simp [hd, h2]
  · simp [hd]

/-- A `num` entry can only come from the ring-closure branch of the
per-bond assignment: both endpoints are non-terminal, the loop's ring
search succeeded, and the value is `visited[2]` of the discovered path. -/
theorem refEntryFor_num (bonds : Bonds) (g : Nat → List Nat) (mrs i v : Nat)
    (h : refEntryFor bonds g mrs i = RefEntry.num v) :
    ∃ p, (g (bondAtom1 bonds i)).length ≠ 1 ∧ (g (bondAtom2 bonds i)).length ≠ 1 ∧
      ringLoop g [bondAtom1 bonds i, bondAtom2 bonds i] (mrs - 3) 3 = some p ∧
      v = p.getD 2 0 := by
  unfold refEntryFor at h
  by_cases h0 : bondOrderLe1 bonds i = true
  · rw [if_pos h0] at h
    simp at h
  · rw [if_neg h0] at h
    by_cases hl1 : (g (bondAtom1 bonds i)).length = 1
    · rw [if_pos hl1] at h
      by_cases hl2 : (g (bondAtom2 bonds i)).length = 1
      · rw [if_pos hl2] at h
        simp at h
      · rw [if_neg hl2] at h
        cases hf : firstIdxNe (g (bondAtom2 bonds i)).length (bondAtom1 bonds i) with
        | some k => rw [hf] at h; simp at h
        | none => rw [hf] at h; simp at h
    · rw [if_neg hl1] at h
      by_cases hl2 : (g (bondAtom2 bonds i)).length = 1
      · rw [if_pos hl2] at h
        cases hf : firstIdxNe (g (bondAtom1 bonds i)).length (bondAtom2 bonds i) with
        | some k => rw [hf] at h; simp at h
        | none => rw [hf] at h; simp at h
      · rw [if_neg hl2] at h
        cases hr : ringLoop g [bondAtom1 bonds i, bondAtom2 bonds i] (mrs - 3) 3 with
        | some p =>
          rw [hr] at h
          exact ⟨p, hl1, hl2, rfl, (RefEntry.num.inj h).symm⟩
        | none =>
          rw [hr] at h
          cases hl : lastIdxNe (g (bondAtom1 bonds i)).length (bondAtom2 bonds i) with
          | some k => rw [hl] at h; simp at h
          | none => rw [hl] at h; simp at h

/-- A `num` entry never equals either endpoint of its own bond: the atom
stored on ring closure is the first one pushed past the seed path
`[ai1, ai2]`, and pushes are guarded by the visited check. -/
theorem refEntryFor_num_ne (bonds : Bonds) (g : Nat → List Nat) (mrs i v : Nat)
    (h : refEntryFor bonds g mrs i = RefEntry.num v) :
    v ≠ bondAtom1 bonds i ∧ v ≠ bondAtom2 bonds i := by
  obtain ⟨p, _, _, hp, hv⟩ := refEntryFor_num bonds g mrs i v h
  rw [ringLoop_eq] at hp
  by_cases hd : 3 < mrs - 3
  · rw [if_pos hd] at hp
    obtain ⟨h3, hpre, hfresh⟩ := propogateSearch_some_inv g _ _ _ hp
    obtain ⟨t, ht⟩ := hpre
    cases t with
    | nil =>
      rw [← ht] at h3
      simp at h3
    | cons x t' =>
      have hv2 : p.getD 2 0 = x := by rw [← ht]; rfl
      have hx : x ∈ List.drop ([bondAtom1 bonds i, bondAtom2 bonds i] : List Nat).length p := by
        rw [← ht, List.drop_left]
        exact List.mem_cons_self x t'
      have hnx := hfresh x hx
      simp only [List.mem_cons, List.not_mem_nil, or_false, not_or] at hnx
      rw [hv, hv2]
      exact hnx
  · rw [if_neg hd] at hp
    cases hp

/-- Reading the constructed entry list at a bond index is the per-bond
assignment. -/
theorem assign_getD_lt (bonds : Bonds) (mrs j : Nat) (hj : j < bonds.nb) :
    (assignBondReferenceAtoms bonds mrs).getD j RefEntry.undef =
      refEntryFor bonds (buildBondGraph bonds) mrs j := by
  unfold assignBondReferenceAtoms
  simp [List.getD_eq_getElem?_getD, List.getElem?_map, List.getElem?_range, hj]

/-- Past the bond count the entry list reads as an `undefined` hole. -/
theorem assign_getD_ge (bonds : Bonds) (mrs j : Nat) (hj : bonds.nb ≤ j) :
    (assignBondReferenceAtoms bonds mrs).getD j RefEntry.undef = RefEntry.undef := by
  apply List.getD_eq_default
  simpa [assignBondReferenceAtoms] using hj

/-- The scan only answers with a matching bond index. -/
theorem scanBonds_some_matches (bonds : Bonds) (t1 t2 : Int) :
    ∀ fuel j r, scanBonds bonds t1 t2 fuel j = some r →
      matchesBond bonds t1 t2 r = true := by
  intro fuel
  induction fuel with
  | zero => intro j r h; simp [scanBonds] at h
  | succ fuel ih =>
    intro j r h
    simp only [scanBonds] at h
    by_cases hm : matchesBond bonds t1 t2 (if j = bonds.nb then 0 else j) = true
    · rw [if_pos hm] at h
      obtain rfl : (if j = bonds.nb then 0 else j) = r := by injection h
      exact hm
    · rw [if_neg hm] at h
      exact ih _ r h

/-- A scan started within bounds answers with an in-range bond index. -/
theorem scanBonds_some_lt (bonds : Bonds) (t1 t2 : Int) :
    ∀ fuel j r, fuel ≤ bonds.nb → j ≤ bonds.nb →
      scanBonds bonds t1 t2 fuel j = some r → r < bonds.nb := by
  intro fuel
  induction fuel with
  | zero => intro j r _ _ h; simp [scanBonds] at h
  | succ fuel ih =>
    intro j r hf hj h
    simp only [scanBonds] at h
    have hjlt : (if j = bonds.nb then 0 else j) < bonds.nb := by
      split_ifs with he <;> omega
    by_cases hm : matchesBond bonds t1 t2 (if j = bonds.nb then 0 else j) = true
    · rw [if_pos hm] at h
      obtain rfl : (if j = bonds.nb then 0 else j) = r := by injection h
      exact hjlt
    · rw [if_neg hm] at h
      exact ih _ r (by omega) (by omega) h

/-- One step of the scan closes the cyclic gap to any matching index. -/
theorem cyclicGap_step (nb j k : Nat) (hj : j ≤ nb) (hk : k < nb)
    (hne : k ≠ (if j = nb then 0 else j)) :
    cyclicGap nb ((if j = nb then 0 else j) + 1) k + 1 ≤ cyclicGap nb j k := by
  unfold cyclicGap
  split_ifs at hne ⊢ <;> omega

/-- The cyclic gap from an in-bounds hint to an in-range index is below
the bond count, so a full scan always reaches the index. -/
theorem cyclicGap_lt (nb j k : Nat) (hj : j ≤ nb) (hk : k < nb) :
    cyclicGap nb j k < nb := by
  unfold cyclicGap
  split_ifs <;> omega

/-- If the scan runs out of fuel without answering, every matching index
lies at cyclic gap at least the fuel spent. -/
theorem scanBonds_none_gap (bonds : Bonds) (t1 t2 : Int) :
    ∀ fuel j, j ≤ bonds.nb → scanBonds bonds t1 t2 fuel j = none →
      ∀ k, k < bonds.nb → matchesBond bonds t1 t2 k = true →
        fuel ≤ cyclicGap bonds.nb j k := by
  intro fuel
  induction fuel with
  | zero => intro j _ _ k _ _; exact Nat.zero_le _
  | succ fuel ih =>
    intro j hj h k hk hm
    simp only [scanBonds] at h
    by_cases hmj : matchesBond bonds t1 t2 (if j = bonds.nb then 0 else j) = true
    · rw [if_pos hmj] at h
      cases h
    · rw [if_neg hmj] at h
      have hne : k ≠ (if j = bonds.nb then 0 else j) := by
        intro he
        rw [he] at hm
        exact hmj hm
      have hjlt : (if j = bonds.nb then 0 else j) < bonds.nb := by
        split_ifs with he <;> omega
      have hrec := ih ((if j = bonds.nb then 0 else j) + 1) (by omega) h k hk hm
      have hstep := cyclicGap_step bonds.nb j k hj hk hne
      omega

/-- With at most one matching bond index, the scan's answer does not
depend on the hint it starts from. -/
theorem scanBonds_eq_of_unique (bonds : Bonds) (t1 t2 : Int) (s1 s2 : Nat)
    (hs1 : s1 ≤ bonds.nb) (hs2 : s2 ≤ bonds.nb)
    (hu : ∀ j1, j1 < bonds.nb → ∀ j2, j2 < bonds.nb →
      matchesBond bonds t1 t2 j1 = true → matchesBond bonds t1 t2 j2 = true →
      j1 = j2) :
    scanBonds bonds t1 t2 bonds.nb s1 = scanBonds bonds t1 t2 bonds.nb s2 := by
  by_cases hex : ∃ k, k < bonds.nb ∧ matchesBond bonds t1 t2 k = true
  · obtain ⟨k, hk, hm⟩ := hex
    have key : ∀ s, s ≤ bonds.nb → scanBonds bonds t1 t2 bonds.nb s = some k := by
      intro s hs
      cases hsc : scanBonds bonds t1 t2 bonds.nb s with
      | none =>
        have hgap := scanBonds_none_gap bonds t1 t2 bonds.nb s hs hsc k hk hm
        have hlt := cyclicGap_lt bonds.nb s k hs hk
        omega
      | some r =>
        have hmr := scanBonds_some_matches bonds t1 t2 bonds.nb s r hsc
        have hrlt := scanBonds_some_lt bonds t1 t2 bonds.nb s r le_rfl hs hsc
        rw [hu r hrlt k hk hmr hm]
    rw [key s1 hs1, key s2 hs2]
  · push_neg at hex
    have key : ∀ s, s ≤ bonds.nb → scanBonds bonds t1 t2 bonds.nb s = none := by
      intro s hs
      cases hsc : scanBonds bonds t1 t2 bonds.nb s with
      | none => rfl
      | some r =>
        have hmr := scanBonds_some_matches bonds t1 t2 bonds.nb s r hsc
        have hrlt := scanBonds_some_lt bonds t1 t2 bonds.nb s r le_rfl hs hsc
        exact absurd hmr (hex r hrlt)
    rw [key s1 hs1, key s2 hs2]

/-- The instrumented loop pass computes the same search result. -/
theorem psStepD_fst (recurD : List Nat → Option (List Nat) × Nat)
    (recur : List Nat → Option (List Nat)) (deepen : Bool) (visited : List Nat)
    (Hf : ∀ v, (recurD v).1 = recur v) :
    ∀ ns, (psStepD recurD deepen visited ns).1 = psStep recur deepen visited ns := by
  intro ns
  induction ns with
  | nil => simp [psStepD, psStep]
  | cons n ns ih =>
    simp only [psStepD, psStep]
    by_cases hc : 3 ≤ visited.length ∧ visited.headD 0 = n
    · rw [if_pos hc, if_pos hc]
    · rw [if_neg hc, if_neg hc]
      by_cases hd : deepen = true
      · rw [if_pos hd, if_pos hd]
        by_cases hm : n ∈ visited
        · rw [if_pos hm, if_pos hm]
          exact ih
        · rw [if_neg hm, if_neg hm]
          have hv := Hf (visited ++ [n])
          rcases hrd : recurD (visited ++ [n]) with ⟨ro, dd⟩
          rw [hrd] at hv
          rw [← hv]
          cases ro with
          | some p => rfl
          | none => exact ih
      · rw [if_neg hd, if_neg hd]
        exact ih

/-- At depth 0 the loop never recurses, so the recorded depth is 0. -/
theorem psStepD_snd_false (recurD : List Nat → Option (List Nat) × Nat)
    (visited : List Nat) :
    ∀ ns, (psStepD recurD false visited ns).2 = 0 := by
  intro ns
  induction ns with
  | nil => simp [psStepD]
  | cons n ns ih =>
    simp only [psStepD]
    by_cases hc : 3 ≤ visited.length ∧ visited.headD 0 = n
    · rw [if_pos hc]
    · rw [if_neg hc]
      simpa using ih

/-- When every recursive call stays within depth `bd`, one loop pass
stays within `bd + 1`. -/
theorem psStepD_snd_le (recurD : List Nat → Option (List Nat) × Nat)
    (visited : List Nat) (bd : Nat) (Hb : ∀ v, (recurD v).2 ≤ bd) :
    ∀ ns, (psStepD recurD true visited ns).2 ≤ bd + 1 := by
  intro ns
  induction ns with
  | nil => simp [psStepD]
  | cons n ns ih =>
    simp only [psStepD]
    by_cases hc : 3 ≤ visited.length ∧ visited.headD 0 = n
    · rw [if_pos hc]
      simp
    · rw [if_neg hc]
      by_cases hm : n ∈ visited
      · rw [if_pos hm]
        exact ih
      · rw [if_neg hm]
        have hb := Hb (visited ++ [n])
        rcases hrd : recurD (visited ++ [n]) with ⟨ro, dd⟩
        rw [hrd] at hb
        cases ro with
        | some p => simpa using hb
        | none =>
          have hih := ih
          show max (dd + 1) (psStepD recurD true visited ns).2 ≤ bd + 1
          omega

/-- The instrumented search computes the same result as the source
search. -/
theorem propogateSearchD_fst (g : Nat → List Nat) :
    ∀ md visited,
      (propogateSearchD g visited md).1 = propogateSearch g visited md := by
  intro md
  induction md with
  | zero =>
    intro visited
    exact psStepD_fst _ _ _ _ (fun _ => rfl) _
  | succ md ih =>
    intro visited
    exact psStepD_fst _ _ _ _ (fun v => ih v) _

/-- The nesting of recursive search calls never exceeds the depth limit. -/
theorem propogateSearchD_snd (g : Nat → List Nat) :
    ∀ md visited, (propogateSearchD g visited md).2 ≤ md := by
  intro md
  induction md with
  | zero =>
    intro visited
    exact Nat.le_of_eq (psStepD_snd_false _ _ _)
  | succ md ih =>
    intro visited
    exact psStepD_snd_le _ _ _ (fun v => ih v) _

/-- The instrumented deepening loop computes the same result. -/
theorem ringLoopDAux_fst (g : Nat → List Nat) (visited : List Nat) (bound : Nat) :
    ∀ rem d, (ringLoopDAux g visited bound rem d).1 =
      ringLoopAux g visited bound rem d := by
  intro rem
  induction rem with
  | zero => intro d; simp [ringLoopDAux, ringLoopAux]
  | succ rem ih =>
    intro d
    simp only [ringLoopDAux, ringLoopAux]
    by_cases hd : d < bound
    · rw [if_pos hd, if_pos hd]
      cases hs : propogateSearch g visited bound with
      | some p => rfl
      | none => exact ih (d + 1)
    · rw [if_neg hd, if_neg hd]

/-- The deepening loop runs at most its iteration budget. -/
theorem ringLoopDAux_snd (g : Nat → List Nat) (visited : List Nat) (bound : Nat) :
    ∀ rem d, (ringLoopDAux g visited bound rem d).2 ≤ rem := by
  intro rem
  induction rem with
  | zero => intro d; simp [ringLoopDAux]
  | succ rem ih =>
    intro d
    simp only [ringLoopDAux]
    by_cases hd : d < bound
    · rw [if_pos hd]
      cases hs : propogateSearch g visited bound with
      | some p => simp
      | none =>
        have := ih (d + 1)
        show (ringLoopDAux g visited bound rem (d + 1)).2 + 1 ≤ rem + 1
        omega
    · rw [if_neg hd]
      simp

/-- Claim C8: the bounded ring search terminates for every input: for
every bond graph, start path and configured bound, the instrumented
search agrees with the source search while its recursion nesting never
exceeds the depth limit (which `assignBondReferenceAtoms` sets to
`maxRingSize - 3 < maxRingSize`), and the instrumented deepening loop
agrees with the source loop while running at most `bound - d`
iterations (at most `maxRingSize - 6` at the call site `d = 3`). -/
theorem ringSearch_termination (g : Nat → List Nat) (visited : List Nat)
    (maxDepth bound d : Nat) :
    (propogateSearchD g visited maxDepth).1 = propogateSearch g visited maxDepth ∧
    (propogateSearchD g visited maxDepth).2 ≤ maxDepth ∧
    (ringLoopD g visited bound d).1 = ringLoop g visited bound d ∧
    (ringLoopD g visited bound d).2 ≤ bound - d :=
  ⟨propogateSearchD_fst g maxDepth visited, propogateSearchD_snd g maxDepth visited,
   ringLoopDAux_fst g visited bound (bound - d) d,
   ringLoopDAux_snd g visited bound (bound - d) d⟩

/-- Claim C1 counterexample: on the two-ring residue, the code assigns
reference atom 2 (found by the full-depth search through the six-ring),
while the iterative-deepening search the claim describes closes the
triangle first and its path's index-2 atom is 6: the loop never passes
its increasing counter to the search. -/
theorem assignBondReference_iterDeep_cex :
    (assignBondReferenceAtoms bondsTwoRings maxRingSizeDefault).getD 0
        RefEntry.undef = RefEntry.num 2 ∧
    ringSearchIterDeep (buildBondGraph bondsTwoRings) [0, 1] maxRingSizeDefault =
      some [0, 1, 6] ∧
    RefEntry.num (([0, 1, 6] : List Nat).getD 2 0) ≠ RefEntry.num 2 := by
  decide

/-- Claim C1 (amended): for a multi-order bond with both endpoints
non-terminal and `maxRingSize > 6`, every iteration of the deepening
loop passes the constant depth limit `maxRingSize - 3` (the counter is
incremented but never passed to the search), so the assignment equals a
single search at depth `maxRingSize - 3`: on ring closure the reference
is the third atom (index 2) of the discovered path, otherwise the
no-ring fallback applies. -/
theorem refEntryFor_constant_depth (bonds : Bonds) (mrs i : Nat)
    (hmrs : 6 < mrs) (ho : bondOrderLe1 bonds i = false)
    (h1 : ((buildBondGraph bonds) (bondAtom1 bonds i)).length ≠ 1)
    (h2 : ((buildBondGraph bonds) (bondAtom2 bonds i)).length ≠ 1) :
    refEntryFor bonds (buildBondGraph bonds) mrs i =
      (match propogateSearch (buildBondGraph bonds)
          [bondAtom1 bonds i, bondAtom2 bonds i] (mrs - 3) with
       | some p => RefEntry.num (p.getD 2 0)
       | none =>
         match lastIdxNe ((buildBondGraph bonds) (bondAtom1 bonds i)).length
             (bondAtom2 bonds i) with
         | some k => RefEntry.str k
         | none => RefEntry.undef) := by
  unfold refEntryFor
  rw [if_neg (by simp [ho]), if_neg h1, if_neg h2, ringLoop_eq,
    if_pos (by omega)]

/-- Claim C1 witness: the amended statement evaluated on the triangle
residue, whose double bond closes the three-ring at full depth. -/
theorem refEntryFor_constant_depth_witness :
    refEntryFor bondsTriangle (buildBondGraph bondsTriangle) 8 0 =
      (match propogateSearch (buildBondGraph bondsTriangle)
          [bondAtom1 bondsTriangle 0, bondAtom2 bondsTriangle 0] (8 - 3) with
       | some p => RefEntry.num (p.getD 2 0)
       | none =>
         match lastIdxNe ((buildBondGraph bondsTriangle)
             (bondAtom1 bondsTriangle 0)).length (bondAtom2 bondsTriangle 0) with
         | some k => RefEntry.str k
         | none => RefEntry.undef) :=
  refEntryFor_constant_depth bondsTriangle 8 0 (by decide) (by decide)
    (by decide) (by decide)

/-- Claim C2: on the bond list {(0,1) order 2, (1,2) order 1}, atom 0 is
terminal and atom 1 is not, and the intended reference (the neighbour of
atom 1 other than atom 0) is atom 2; but the `for...in` loop stores the
neighbour-array key string "1", not atom 2. -/
theorem terminalBranch_stores_positionString :
    (assignBondReferenceAtoms bondsTerminal maxRingSizeDefault).getD 0
        RefEntry.undef = RefEntry.str 1 ∧
    RefEntry.str 1 ≠ RefEntry.num 2 := by
  decide

/-- Claim C3: on the two-atom residue with bond (0,1) listed three times
(first copy order 2), the stored entry is the `for...in` key string "2":
present (not a hole) yet not an atom index in [0, atomCount) = [0, 2). -/
theorem dupBond_entry_out_of_range :
    (assignBondReferenceAtoms bondsDup3 maxRingSizeDefault).getD 0
        RefEntry.undef = RefEntry.str 2 ∧
    RefEntry.str 2 ≠ RefEntry.undef ∧
    RefEntry.str 2 ≠ RefEntry.num 0 ∧
    RefEntry.str 2 ≠ RefEntry.num 1 := by
  decide

/-- Claim C4: whenever `getBondReferenceAtom` answers with an atom index,
that index differs from both queried endpoints (offsets of atoms in the
same residue occurrence coincide, which the hypothesis records). -/
theorem getBondReferenceAtom_ne_endpoints (rt : RTModel) (hint : Nat)
    (ap1 ap2 : AtomProxy) (r : Int)
    (hoff : ap1.residueIndex = ap2.residueIndex →
      ap1.residueAtomOffset = ap2.residueAtomOffset)
    (h : getBondReferenceAtom rt hint ap1 ap2 = some r) :
    r ≠ ap1.index ∧ r ≠ ap2.index := by
  simp only [getBondReferenceAtom] at h
  by_cases hri : ap1.residueIndex ≠ ap2.residueIndex
  · rw [if_pos hri] at h
    cases h
  · rw [if_neg hri] at h
    push_neg at hri
    have hoe := hoff hri
    by_cases hs : (rt.atomCount : Int) ≤
        max (ap1.index - ap1.residueAtomOffset) (ap2.index - ap2.residueAtomOffset) ∨
        min (ap1.index - ap1.residueAtomOffset) (ap2.index - ap2.residueAtomOffset) < 0
    · rw [if_pos hs] at h
      cases h
    · rw [if_neg hs] at h
      cases hscan : scanBonds rt.bonds (ap1.index - ap1.residueAtomOffset)
          (ap2.index - ap2.residueAtomOffset) rt.bonds.nb hint with
      | none =>
        simp [hscan] at h
      | some j =>
        simp only [hscan, RTModel.refAtoms] at h
        by_cases hj : j < rt.bonds.nb
        · have hlt := assign_getD_lt rt.bonds maxRingSizeDefault j hj
          rw [hlt] at h
          cases he : refEntryFor rt.bonds (buildBondGraph rt.bonds) maxRingSizeDefault j with
          | undef => rw [he] at h; cases h
          | str s => rw [he] at h; cases h
          | num v =>
            rw [he] at h
            obtain rfl : (v : Int) + ap1.residueAtomOffset = r := by injection h
            obtain ⟨hv1, hv2⟩ :=
              refEntryFor_num_ne rt.bonds (buildBondGraph rt.bonds) maxRingSizeDefault j v he
            have hmr := scanBonds_some_matches rt.bonds _ _ rt.bonds.nb hint j hscan
            simp only [matchesBond, Bool.or_eq_true, Bool.and_eq_true, beq_iff_eq] at hmr
            rcases hmr with ⟨ha, hb⟩ | ⟨ha, hb⟩
            · constructor
              · intro hcon
                exact hv1 (by omega)
              · intro hcon
                exact hv2 (by omega)
            · constructor
              · intro hcon
                exact hv2 (by omega)
              · intro hcon
                exact hv1 (by omega)
        · have hge := assign_getD_ge rt.bonds maxRingSizeDefault j (by omega)
          rw [hge] at h
          cases h

/-- Claim C4 witness: the triangle's double bond resolves to atom 2,
distinct from both endpoints 0 and 1. -/
theorem getBondReferenceAtom_ne_endpoints_witness :
    (2 : Int) ≠ ({ index := 0, residueIndex := 0, residueAtomOffset := 0 } : AtomProxy).index ∧
    (2 : Int) ≠ ({ index := 1, residueIndex := 0, residueAtomOffset := 0 } : AtomProxy).index :=
  getBondReferenceAtom_ne_endpoints rtTriangle 0
    { index := 0, residueIndex := 0, residueAtomOffset := 0 }
    { index := 1, residueIndex := 0, residueAtomOffset := 0 } 2
    (fun _ => rfl) (by decide)

/-- Claim C5 counterexample: with `chemCompType` set to a code outside
the protein/RNA/DNA/saccharide sets, `isWater` still consults `resname`
(it has no `chemCompType` guard), so changing only the resname flips the
molecule type from Water to Unknown. -/
theorem getMoleculeType_resname_dependent_cex :
    getMoleculeType { resname := "HOH", chemCompType := "OTHER", atomNames := [] } ≠
      getMoleculeType { resname := "XXX", chemCompType := "OTHER", atomNames := [] } := by
  decide

/-- Claim C5 (amended): molecule-type classification is independent of
`resname` whenever `chemCompType` is set to a code in the protein, RNA
or DNA code sets (those branches fire before the resname-based water and
ion tests); for other set codes the water/ion tests still consult the
resname. -/
theorem getMoleculeType_resname_independent (r1 r2 : String) (ns : List String)
    (c : String)
    (h : c ∈ ChemCompProtein ∨ c ∈ ChemCompRna ∨ c ∈ ChemCompDna) :
    getMoleculeType { resname := r1, chemCompType := c, atomNames := ns } =
      getMoleculeType { resname := r2, chemCompType := c, atomNames := ns } := by
  rcases h with h | h | h <;> fin_cases h <;> rfl

/-- Claim C5 witness: an amino-acid resname and a water resname classify
identically under the DNA LINKING code. -/
theorem getMoleculeType_resname_independent_witness :
    getMoleculeType { resname := "GLY", chemCompType := "DNA LINKING", atomNames := [] } =
      getMoleculeType { resname := "HOH", chemCompType := "DNA LINKING", atomNames := [] } :=
  getMoleculeType_resname_independent "GLY" "HOH" [] "DNA LINKING" (by decide)

/-- Claim C6 counterexample: with the bond (0,1) listed twice — once
with order 1 (no entry) and once with order 2 (ring entry) — the hint
selects which duplicate the scan matches first, and the answers differ. -/
theorem getBondReferenceAtom_hint_dependent_cex :
    getBondReferenceAtom rtDupMixed 0
        { index := 0, residueIndex := 0, residueAtomOffset := 0 }
        { index := 1, residueIndex := 0, residueAtomOffset := 0 } ≠
      getBondReferenceAtom rtDupMixed 1
        { index := 0, residueIndex := 0, residueAtomOffset := 0 }
        { index := 1, residueIndex := 0, residueAtomOffset := 0 } := by
  decide

/-- Claim C6 (amended): the answer of `getBondReferenceAtom` is
independent of the `_lastBondIdx` hint provided at most one bond index
matches the queried endpoint pair (in particular whenever the bond list
holds no duplicate of that pair); the hint then only affects scan
order. -/
theorem getBondReferenceAtom_hint_independent (rt : RTModel)
    (ap1 ap2 : AtomProxy) (hint1 hint2 : Nat)
    (hh1 : hint1 ≤ rt.bonds.nb) (hh2 : hint2 ≤ rt.bonds.nb)
    (hu : ∀ j1, j1 < rt.bonds.nb → ∀ j2, j2 < rt.bonds.nb →
      matchesBond rt.bonds (ap1.index - ap1.residueAtomOffset)
          (ap2.index - ap2.residueAtomOffset) j1 = true →
      matchesBond rt.bonds (ap1.index - ap1.residueAtomOffset)
          (ap2.index - ap2.residueAtomOffset) j2 = true → j1 = j2) :
    getBondReferenceAtom rt hint1 ap1 ap2 = getBondReferenceAtom rt hint2 ap1 ap2 := by
  simp only [getBondReferenceAtom]
  split_ifs with hri hs
  · rfl
  · rfl
  · rw [scanBonds_eq_of_unique rt.bonds _ _ hint1 hint2 hh1 hh2 hu]

/-- Claim C6 witness: on the triangle residue the pair (0,1) matches a
single bond, and hints 0 and 2 give the same answer. -/
theorem getBondReferenceAtom_hint_independent_witness :
    getBondReferenceAtom rtTriangle 0
        { index := 0, residueIndex := 0, residueAtomOffset := 0 }
        { index := 1, residueIndex := 0, residueAtomOffset := 0 } =
      getBondReferenceAtom rtTriangle 2
        { index := 0, residueIndex := 0, residueAtomOffset := 0 }
        { index := 1, residueIndex := 0, residueAtomOffset := 0 } :=
  getBondReferenceAtom_hint_independent rtTriangle
    { index := 0, residueIndex := 0, residueAtomOffset := 0 }
    { index := 1, residueIndex := 0, residueAtomOffset := 0 } 0 2
    (by decide) (by decide) (by decide)

/-- Claim C7: a query across two residue occurrences (distinct residue
indices) always answers "no reference", whatever the rest of the state. -/
theorem getBondReferenceAtom_interResidue (rt : RTModel) (hint : Nat)
    (ap1 ap2 : AtomProxy) (h : ap1.residueIndex ≠ ap2.residueIndex) :
    getBondReferenceAtom rt hint ap1 ap2 = none := by
  simp only [getBondReferenceAtom]
  rw [if_pos h]

/-- Claim C7 witness: the triangle's own multi-order bond queried across
residues 0 and 1 yields no reference. -/
theorem getBondReferenceAtom_interResidue_witness :
    getBondReferenceAtom rtTriangle 0
        { index := 0, residueIndex := 0, residueAtomOffset := 0 }
        { index := 1, residueIndex := 1, residueAtomOffset := 0 } = none :=
  getBondReferenceAtom_interResidue rtTriangle 0
    { index := 0, residueIndex := 0, residueAtomOffset := 0 }
    { index := 1, residueIndex := 1, residueAtomOffset := 0 } (by decide)

/-- Claim C9: `fromJSON (toJSON rt)` reproduces `resname`,
`atomTypeIdList` and `hetero` exactly, and the result is a fresh
construction from those inputs (all derived fields recomputed, with
`chemCompType` and `bonds` re-supplied externally). -/
theorem toJSON_fromJSON_roundTrip (f : Nat → String) (r : String)
    (atl : List Nat) (h : Bool) (cct cct' : String) (bonds bonds' : Bonds) :
    (fromJSON f (toJSON (mkResidueType f r atl h cct bonds)) cct' bonds').resname =
        (mkResidueType f r atl h cct bonds).resname ∧
    (fromJSON f (toJSON (mkResidueType f r atl h cct bonds)) cct' bonds').atomTypeIdList =
        (mkResidueType f r atl h cct bonds).atomTypeIdList ∧
    (fromJSON f (toJSON (mkResidueType f r atl h cct bonds)) cct' bonds').hetero =
        (mkResidueType f r atl h cct bonds).hetero ∧
    fromJSON f (toJSON (mkResidueType f r atl h cct bonds)) cct' bonds' =
        mkResidueType f r atl h cct' bonds' := by
  cases h <;> simp [fromJSON, toJSON, mkResidueType]

/-- Claim C10: when the scan matches a bond whose entry came from any
branch other than ring closure (a terminal endpoint, or the no-ring
fallback — the branch conditions are the hypothesis), the query answers
"no reference": those branches store `for...in` key strings (or leave a
hole), and only `num` entries pass the `Number.isInteger` gate. -/
theorem getBondReferenceAtom_nonRing_none (rt : RTModel) (hint : Nat)
    (ap1 ap2 : AtomProxy) (j : Nat)
    (_horder : bondOrderLe1 rt.bonds j = false)
    (hscan : scanBonds rt.bonds (ap1.index - ap1.residueAtomOffset)
        (ap2.index - ap2.residueAtomOffset) rt.bonds.nb hint = some j)
    (hbranch : ((buildBondGraph rt.bonds) (bondAtom1 rt.bonds j)).length = 1 ∨
      ((buildBondGraph rt.bonds) (bondAtom2 rt.bonds j)).length = 1 ∨
      ringLoop (buildBondGraph rt.bonds)
        [bondAtom1 rt.bonds j, bondAtom2 rt.bonds j]
        (maxRingSizeDefault - 3) 3 = none) :
    getBondReferenceAtom rt hint ap1 ap2 = none := by
  have hnotnum : ∀ v, rt.refAtoms.getD j RefEntry.undef ≠ RefEntry.num v := by
    intro v hv
    rw [RTModel.refAtoms] at hv
    by_cases hj : j < rt.bonds.nb
    · rw [assign_getD_lt rt.bonds maxRingSizeDefault j hj] at hv
      obtain ⟨p, hl1, hl2, hp, _⟩ :=
        refEntryFor_num rt.bonds _ maxRingSizeDefault j v hv
      rcases hbranch with hb | hb | hb
      · exact hl1 hb
      · exact hl2 hb
      · rw [hb] at hp
        cases hp
    · rw [assign_getD_ge rt.bonds maxRingSizeDefault j (by omega)] at hv
      cases hv
  simp only [getBondReferenceAtom]
  split_ifs with hri hs
  · rfl
  · rfl
  · rw [hscan]
    show (match rt.refAtoms.getD j RefEntry.undef with
      | RefEntry.num v => some ((v : Int) + ap1.residueAtomOffset)
      | _ => none) = none
    cases he : rt.refAtoms.getD j RefEntry.undef with
    | num v => exact absurd he (hnotnum v)
    | undef => rfl
    | str s => rfl

/-- Claim C10 witness: the terminal-branch bond of `rtTerminal` stores a
string key, and querying that bond yields no reference. -/
theorem getBondReferenceAtom_nonRing_none_witness :
    getBondReferenceAtom rtTerminal 0
        { index := 0, residueIndex := 0, residueAtomOffset := 0 }
        { index := 1, residueIndex := 0, residueAtomOffset := 0 } = none :=
  getBondReferenceAtom_nonRing_none rtTerminal 0
    { index := 0, residueIndex := 0, residueAtomOffset := 0 }
    { index := 1, residueIndex := 0, residueAtomOffset := 0 } 0
    (by decide) (by decide) (by decide)
